import Mathlib

/-!
Shallow embedding of the value-parsing, discount and sorting core of the
vehicle-catalog front end (`carros.js`, plus the single-price variant in
`imoveis.js`).

Modelling conventions:
* JS strings are `String` / `List Char`; an argument that may be `undefined`
  or `null` is `Option String`.
* JS numbers are rationals `ℚ`; the value `NaN` is modelled as the `none`
  of an `Option ℚ` where it can occur.  All currency text reaching
  `parseFloat` consists of digits, commas and periods only, so sign,
  exponent and whitespace handling of `parseFloat` cannot fire and is not
  modelled (for the `imoveis.js` variant, which does not pre-filter, the
  string is trimmed and still contains no sign/exponent after the
  replacements performed there on well-typed input).
* A JS function that can throw is embedded with `Except Unit`.
-/

/-- Characters kept by `valorString.replace(/[^0-9.,]/g, "")`: digits, comma,
period. -/
def isKept (c : Char) : Bool := c.isDigit || c == ',' || c == '.'

/-- `valorString.replace(/[^0-9.,]/g, "").trim()` (carros.js line 16).  After
the replace no whitespace remains, so the `.trim()` is the identity and is
not modelled separately. -/
def cleanList (s : String) : List Char := s.data.filter isKept

/-- Numeric value of a list of decimal digit characters (most significant
first), as read by `parseFloat`. -/
def digitsVal (l : List Char) : ℕ := l.foldl (fun a c => 10 * a + (c.toNat - 48)) 0

/-- `str.replace(",", ".")`: JavaScript `String.prototype.replace` with a
string pattern replaces only the first occurrence. -/
def replaceFirstComma : List Char → List Char
  | [] => []
  | c :: cs => if c = ',' then '.' :: cs else c :: replaceFirstComma cs

/-- `str.lastIndexOf(ch)`: index of the last occurrence, `-1` if absent. -/
def lastIndexOf (ch : Char) (l : List Char) : Int :=
  match l.reverse.findIdx? (fun c => c == ch) with
  | none => -1
  | some i => (l.length : Int) - 1 - (i : Int)

/-- Step 3 of `cleanAndParseValue` (carros.js lines 19-35): count commas and
periods and normalise the decimal separator.
* both present and the last comma is after the last period (BR pattern):
  remove every period, then replace the first comma by a period;
* both present otherwise (EN pattern): remove every comma;
* exactly one comma and no period: replace the comma by a period;
* otherwise: leave the string as it is. -/
def normalizeSeps (l : List Char) : List Char :=
  if 0 < l.count ',' ∧ 0 < l.count '.' then
    if lastIndexOf ',' l > lastIndexOf '.' l then
      replaceFirstComma (l.filter (fun c => decide (c ≠ '.')))
    else
      l.filter (fun c => decide (c ≠ ','))
  else if l.count ',' = 1 ∧ l.count '.' = 0 then
    replaceFirstComma l
  else
    l

/-- Digit scan of `parseFloat` on a string of digits, commas and periods:
longest prefix of the form `digits`, `digits.digits`, `.digits` or
`digits.`; `none` when no digit is found before the scan stops (JS `NaN`).
Returns integer digits, fraction digits and fraction length. -/
def parseSplit (l : List Char) : Option (ℕ × ℕ × ℕ) :=
  let ip := l.takeWhile Char.isDigit
  let rest := l.drop ip.length
  if rest.head? = some '.' then
    let fp := (rest.drop 1).takeWhile Char.isDigit
    if ip.isEmpty && fp.isEmpty then none
    else some (digitsVal ip, digitsVal fp, fp.length)
  else if ip.isEmpty then none else some (digitsVal ip, 0, 0)

/-- The rational denoted by an integer part, fraction part and fraction
length. -/
def ratOfSplit (t : ℕ × ℕ × ℕ) : ℚ := (t.1 : ℚ) + (t.2.1 : ℚ) / (10 : ℚ) ^ t.2.2

/-- `parseFloat(str)` on the cleaned strings of this program; `none` is JS
`NaN`. -/
def parseFloatModel (l : List Char) : Option ℚ := (parseSplit l).map ratOfSplit

/-- `cleanAndParseValue` of carros.js (lines 12-40).  The input is
`Option String`, `none` standing for `undefined`/`null`.  The JS guard
`if (!valorString) return 0` catches `undefined`, `null` and the empty
string.  The final line `isNaN(parsedValue) ? 0 : parsedValue` is the last
`match`: a failed parse yields `0`, so the function always returns a plain
number, never `NaN`. -/
def cleanAndParseValue (v : Option String) : ℚ :=
  match v with
  | none => 0
  | some s =>
    if s = "" then 0
    else
      match parseFloatModel (normalizeSeps (cleanList s)) with
      | none => 0
      | some q => q

namespace Imoveis

/-- `str.replace("R$", "")`: removes the first occurrence of the substring
`R$` (imoveis.js variant, src/unnamed/part_000 line 13). -/
def removeRS : List Char → List Char
  | [] => []
  | 'R' :: '$' :: rest => rest
  | c :: cs => c :: removeRS cs

/-- `str.trim()`. -/
def trimList (l : List Char) : List Char :=
  ((l.dropWhile Char.isWhitespace).reverse.dropWhile Char.isWhitespace).reverse

/-- `cleanAndParseValue` of the imoveis.js variant (src/unnamed/part_000
lines 10-18):
`parseFloat(valorString.replace("R$", "").replace(/\./g, "").replace(",", ".").trim())`.
There is no null guard — a `none` input throws a `TypeError`
(`Except.error ()`) — and no `isNaN` guard, so the `NaN` of a failed parse
(`none` in the inner `Option`) is returned to the caller. -/
def cleanAndParseValue (v : Option String) : Except Unit (Option ℚ) :=
  match v with
  | none => Except.error ()
  | some s =>
    Except.ok (parseFloatModel (trimList
      (replaceFirstComma ((removeRS s.data).filter (fun c => decide (c ≠ '.'))))))

end Imoveis

/-- A catalog item, with the fields the parsing/discount/sorting core reads.
Price fields may be absent (`none`). -/
structure Item where
  marca : String
  modelo : String
  preco_publico : Option String
  preco_pcd : Option String
  valor : Option String
deriving DecidableEq

/-- `carro.preco_publico || "R$ 0,00"` (carros.js lines 51-52): a JS `||`
falls back exactly on falsy values, i.e. an absent field or the empty
string. -/
def precoOrDefault (v : Option String) : Option String :=
  match v with
  | none => some "R$ 0,00"
  | some "" => some "R$ 0,00"
  | some s => some s

/-- `calculateDesconto` (carros.js lines 47-59).  The guard
`typeof precoPublico === "number" && typeof precoPCD === "number"` is always
true in JS (both operands are numbers, `NaN` included), so the function
returns the difference; the `return 0` arm is dead code. -/
def calculateDesconto (carro : Item) : ℚ :=
  cleanAndParseValue (precoOrDefault carro.preco_publico) -
    cleanAndParseValue (precoOrDefault carro.preco_pcd)

/-- Decimal rendering of a scaled-by-100 natural number: `n / 100` dot two
digit characters for `n % 100`. -/
def toFixed2Nat (n : ℕ) : String :=
  Nat.repr (n / 100) ++ "." ++ (if n % 100 < 10 then "0" ++ Nat.repr (n % 100) else Nat.repr (n % 100))

/-- `x.toFixed(2)` of ECMAScript: for negative `x` a minus sign followed by
`(-x).toFixed(2)`; otherwise the integer `n` with `n / 100` closest to `x`
(ties to the larger `n`, i.e. `n = floor(100 x + 1/2)`), rendered with two
fraction digits.  Always a STRING, never a number. -/
def toFixed2 (q : ℚ) : String :=
  if q < 0 then "-" ++ toFixed2Nat (Int.floor (-q * 100 + 1 / 2)).toNat
  else toFixed2Nat (Int.floor (q * 100 + 1 / 2)).toNat

/-- A JavaScript value that is either a number or a string — the honest
return type of `calculateDescontoPercentage`. -/
inductive JSVal where
  | num (q : ℚ)
  | str (s : String)
deriving DecidableEq

/-- `calculateDescontoPercentage` (carros.js lines 66-76).  When the public
price is positive the function returns
`((desconto / precoPublico) * 100).toFixed(2)` — `toFixed` yields a string —
and otherwise the number `0`. -/
def calculateDescontoPercentage (carro : Item) : JSVal :=
  if 0 < cleanAndParseValue (precoOrDefault carro.preco_publico) then
    JSVal.str (toFixed2 (calculateDesconto carro /
      cleanAndParseValue (precoOrDefault carro.preco_publico) * 100))
  else JSVal.num 0

/-- Modelled from the spec: `String.prototype.localeCompare(other, "pt-BR")`
is an external ICU collation not present in the repository.  Per the spec,
accented characters sort in their natural alphabetic position, not in raw
code-point order.  Primary weight of a character: its base letter with
accents and case folded (Brazilian Portuguese alphabet); a space is given a
weight below every digit and letter. -/
def baseFold (c : Char) : Char :=
  match c with
  | 'Á' | 'À' | 'Â' | 'Ã' | 'Ä' | 'á' | 'à' | 'â' | 'ã' | 'ä' => 'a'
  | 'É' | 'È' | 'Ê' | 'é' | 'è' | 'ê' => 'e'
  | 'Í' | 'Ì' | 'í' | 'ì' => 'i'
  | 'Ó' | 'Ò' | 'Ô' | 'Õ' | 'ó' | 'ò' | 'ô' | 'õ' => 'o'
  | 'Ú' | 'Ù' | 'Ü' | 'ú' | 'ù' | 'ü' => 'u'
  | 'Ç' | 'ç' => 'c'
  | ' ' => '"'
  | _ => c.toLower

/-- Modelled from the spec: secondary (accent) weight of a character, used
to break primary ties the way ICU does (plain before accented). -/
def accentClass (c : Char) : Char :=
  match c with
  | 'à' | 'À' | 'è' | 'È' | 'ì' | 'Ì' | 'ò' | 'Ò' | 'ù' | 'Ù' => '1'
  | 'á' | 'Á' | 'é' | 'É' | 'í' | 'Í' | 'ó' | 'Ó' | 'ú' | 'Ú' => '2'
  | 'â' | 'Â' | 'ê' | 'Ê' | 'ô' | 'Ô' => '3'
  | 'ã' | 'Ã' | 'õ' | 'Õ' => '4'
  | 'ä' | 'Ä' | 'ü' | 'Ü' => '5'
  | 'ç' | 'Ç' => '6'
  | _ => '0'

/-- Modelled from the spec: pt-BR collation sort key of a string, compared
lexicographically (as a `List Char`).  Levels, separated by `!` (which is
below every weight character used): primary = folded letters, secondary =
accent classes, and the raw string as a final deterministic tie-break.
Strings with equal key have equal primary and secondary levels and are in
fact identical, matching a collator that compares equal only on identical
normalised text. -/
def ptBRKey (s : String) : List Char :=
  (s.data.map baseFold) ++ '!' :: (s.data.map accentClass) ++ '!' :: s.data

/-- Comparator relation induced by a sort key: `a` sorts no later than `b`.
`Array.prototype.sort` with a comparator `(a, b) => f(a) - f(b)` (or a
string comparison) orders exactly by such a key. -/
def keyRel {α K : Type} [LinearOrder K] (k : α → K) : α → α → Prop :=
  fun a b => k a ≤ k b

instance keyRelDecidable {α K : Type} [LinearOrder K] (k : α → K) :
    DecidableRel (keyRel k) :=
  fun a b => inferInstanceAs (Decidable (k a ≤ k b))

/-- `sortedData.sort(comparator)` for a key-based comparator.  ECMAScript
2019 requires `Array.prototype.sort` to be stable, and for a consistent
comparator sortedness plus stability determine the output uniquely, so any
stable sorting algorithm is an exact model; we use insertion sort
(`List.orderedInsert` places an element before the first element whose key
is not smaller, which is the stable position). -/
def sortByKey {α K : Type} [LinearOrder K] (k : α → K) (l : List α) : List α :=
  List.insertionSort (keyRel k) l

/-- Sort key of the `valor_asc` comparator (carros.js lines 102-106):
`cleanAndParseValue(a.preco_pcd)`, the field taken as-is (no default). -/
def valorKey (a : Item) : ℚ := cleanAndParseValue a.preco_pcd

/-- Sort key of the `marca_asc` comparator (carros.js lines 109-112):
`a.marca.localeCompare(b.marca, "pt-BR")`. -/
def marcaKey (a : Item) : List Char := ptBRKey a.marca

/-- Sort key of the `desconto_desc` comparator (carros.js lines 115-119):
the comparator returns `descontoB - descontoA`, i.e. it orders ascending by
the negated discount (descending by discount). -/
def descontoKey (a : Item) : ℚ := -(calculateDesconto a)

/-- `sortImoveis` (carros.js lines 96-127), list level: the `switch` on
`sortOption` with JS strict string equality; the `case "default"` and
`default:` arms both return `data` itself.  The copy `[...data]` and the
in-place `.sort` are modelled at the store level by `sortImoveisProg`; at
the value level the function returns the sorted copy. -/
def sortImoveis (data : List Item) (sortOption : String) : List Item :=
  if sortOption = "valor_asc" then sortByKey valorKey data
  else if sortOption = "marca_asc" then sortByKey marcaKey data
  else if sortOption = "desconto_desc" then sortByKey descontoKey data
  else data

/-- `sortImoveis` with the JS array store made explicit: a store maps array
references (numbered) to their contents; `dataRef` is the argument array and
`fresh` the reference allocated for `const sortedData = [...data]`.  The
in-place `sortedData.sort(...)` writes only at `fresh`; the `default` arm
returns the original reference `dataRef`.  Result: final store and returned
reference. -/
def sortImoveisProg (σ : Nat → List Item) (dataRef fresh : Nat)
    (sortOption : String) : (Nat → List Item) × Nat :=
  let σ1 := Function.update σ fresh (σ dataRef)
  if sortOption = "valor_asc" then
    (Function.update σ1 fresh (sortByKey valorKey (σ dataRef)), fresh)
  else if sortOption = "marca_asc" then
    (Function.update σ1 fresh (sortByKey marcaKey (σ dataRef)), fresh)
  else if sortOption = "desconto_desc" then
    (Function.update σ1 fresh (sortByKey descontoKey (σ dataRef)), fresh)
  else (σ1, dataRef)

/-- `str.replace(",", ".")` applied to the LAST comma instead of the first:
the reading of claim C4, which designates the separator occurring last (by
index) as the decimal separator. -/
def replaceLastComma (l : List Char) : List Char :=
  (replaceFirstComma l.reverse).reverse

/-- Rendering of the claim sentence for C4 (it differs from the source only
inside the both-present branch with the comma last): the separator kind
occurring last (by index) is the decimal separator; the other kind is a
thousands separator and is removed wholesale; the decimal separator itself
is replaced by the canonical radix point. -/
def claimNormalize (l : List Char) : List Char :=
  if 0 < l.count ',' ∧ 0 < l.count '.' then
    if lastIndexOf ',' l > lastIndexOf '.' l then
      replaceLastComma (l.filter (fun c => decide (c ≠ '.')))
    else
      l.filter (fun c => decide (c ≠ ','))
  else l

/-- Value of a cleaned string under claim C4: parse of its claim-normalised
form, a failed parse giving `0`. -/
def claimParse (l : List Char) : ℚ := (parseFloatModel (claimNormalize l)).getD 0

/-- Value named by claim C10: the number denoted by the longest numeric
prefix of a (dot-free) cleaned string that ends before its first comma;
an empty prefix denotes `0`. -/
def firstSegmentVal (l : List Char) : ℚ :=
  (digitsVal (l.takeWhile (fun c => decide (c ≠ ','))) : ℚ)

/-- Example item of the spec: `preco_publico = "R$ 100,00"`,
`preco_pcd = "R$ 75,00"`. -/
def itemC2 : Item := ⟨"VW", "Polo", some "R$ 100,00", some "R$ 75,00", none⟩

/-- Example item with `preco_publico` absent and `preco_pcd = "R$ 75,00"`. -/
def itemC3 : Item := ⟨"VW", "Polo", none, some "R$ 75,00", none⟩

/-- Example items with accented and unaccented brands. -/
def itemZeta : Item := ⟨"Zeta", "Z1", none, none, none⟩

def itemAlamo : Item := ⟨"Álamo", "A1", none, none, none⟩

def itemAlfa : Item := ⟨"Alfa", "A2", none, none, none⟩

/-- Example store holding one singleton catalog at every reference. -/
def exStore : Nat → List Item := fun _ => [itemC3]

/-- JavaScript subtraction on numbers with `NaN` (`none`) absorbing: the
result of `valorA - valorB` inside the imoveis `valor_asc` comparator. -/
def jsSub (x y : Option ℚ) : Option ℚ :=
  match x, y with
  | some a, some b => some (a - b)
  | _, _ => none

namespace Imoveis

/-- The `valor_asc` comparator of the imoveis variant (src/unnamed/part_000
lines 32-36): `cleanAndParseValue(a.valor) - cleanAndParseValue(b.valor)`.
`a.valor` is evaluated first; an exception from either call (absent `valor`:
`undefined.replace` throws a `TypeError`) propagates; otherwise the result
is a JS number that is `NaN` (`none`) when either parse failed. -/
def compareValor (a b : Item) : Except Unit (Option ℚ) :=
  match Imoveis.cleanAndParseValue a.valor with
  | Except.error e => Except.error e
  | Except.ok x =>
    match Imoveis.cleanAndParseValue b.valor with
    | Except.error e => Except.error e
    | Except.ok y => Except.ok (jsSub x y)

/-- `sortImoveis(data, "valor_asc")` of the imoveis variant on a TWO-element
array `[a, b]`: any correct sort of two elements must invoke the comparator
on the pair (once, up to argument order), so this case is fixed by the
ECMAScript spec independently of the sort algorithm.  An exception from the
comparator aborts the sort and propagates to the caller — no sequence is
returned.  `SortCompare` coerces a `NaN` comparator result to `+0`
(ES2019 `SortCompare`: if `v` is `NaN`, return `+0`), so the two items are
treated as equal and stability keeps the input order.  A positive result
puts `b` first, any other number keeps `[a, b]`. -/
def sortValorAscPair (a b : Item) : Except Unit (List Item) :=
  match compareValor a b with
  | Except.error e => Except.error e
  | Except.ok none => Except.ok [a, b]
  | Except.ok (some q) => Except.ok (if 0 < q then [b, a] else [a, b])

end Imoveis

/-- Example item of the imoveis variant with the `valor` field absent. -/
def itemSemValor : Item := ⟨"A", "M1", none, none, none⟩

/-- Example imoveis items: a well-formed `valor`, and a digit-free `valor`
that `parseFloat` turns into `NaN`. -/
def itemValor2 : Item := ⟨"B", "M2", none, none, some "R$ 2,00"⟩

def itemValor9 : Item := ⟨"C", "M3", none, none, some "R$ 9,00"⟩

def itemValorNaN : Item := ⟨"D", "M4", none, none, some "abc"⟩

/-! Helper lemmas about the parser. -/

theorem ratOfSplit_nonneg (t : ℕ × ℕ × ℕ) : 0 ≤ ratOfSplit t := by
  unfold ratOfSplit
  positivity

theorem parseFloatModel_nonneg {l : List Char} {q : ℚ}
    (h : parseFloatModel l = some q) : 0 ≤ q := by
  unfold parseFloatModel at h
  cases hs : parseSplit l with
  | none => rw [hs] at h; exact absurd h (by simp)
  | some t =>
    rw [hs] at h
    have hq : ratOfSplit t = q := by simpa using h
    exact hq ▸ ratOfSplit_nonneg t

theorem cleanAndParseValue_nonneg (v : Option String) : 0 ≤ cleanAndParseValue v := by
  cases v with
  | none => exact le_refl 0
  | some s =>
    by_cases hs : s = ""
    · simp [cleanAndParseValue, hs]
    · simp only [cleanAndParseValue]
      rw [if_neg hs]
      cases hp : parseFloatModel (normalizeSeps (cleanList s)) with
      | none => exact le_refl 0
      | some q => exact parseFloatModel_nonneg hp

theorem parseSplit_of_no_dot {l : List Char} (h : '.' ∉ l) :
    parseSplit l =
      if (l.takeWhile Char.isDigit).isEmpty then none
      else some (digitsVal (l.takeWhile Char.isDigit), 0, 0) := by
  unfold parseSplit
  rw [if_neg]
  intro hhead
  have hmem : '.' ∈ l.drop (l.takeWhile Char.isDigit).length :=
    List.mem_of_mem_head? (Option.mem_def.mpr hhead)
  exact h (List.mem_of_mem_drop hmem)

theorem takeWhile_digit_of_kept {l : List Char} (hk : ∀ c ∈ l, isKept c = true)
    (hd : '.' ∉ l) :
    l.takeWhile Char.isDigit = l.takeWhile (fun c => decide (c ≠ ',')) := by
  induction l with
  | nil => rfl
  | cons c cs ih =>
    have hc : isKept c = true := hk c (List.mem_cons_self _ _)
    have hcd : c ≠ '.' := fun h => hd (h ▸ List.mem_cons_self _ _)
    have ihr := ih (fun x hx => hk x (List.mem_cons_of_mem _ hx))
      (fun h => hd (List.mem_cons_of_mem _ h))
    by_cases hdig : c.isDigit
    · have hcc : c ≠ ',' := by
        intro h
        rw [h] at hdig
        simp [Char.isDigit] at hdig
      rw [List.takeWhile_cons, List.takeWhile_cons, if_pos hdig,
        if_pos (by simp [hcc]), ihr]
    · have hcc : c = ',' := by
        unfold isKept at hc
        rcases Bool.or_eq_true_iff.mp hc with h1 | h2
        · rcases Bool.or_eq_true_iff.mp h1 with h3 | h4
          · exact absurd h3 hdig
          · exact beq_iff_eq.mp h4
        · exact absurd (beq_iff_eq.mp h2) hcd
      rw [List.takeWhile_cons, List.takeWhile_cons, if_neg hdig,
        if_neg (by simp [hcc])]

theorem replaceFirstComma_append {a : List Char} (b : List Char) (ha : ',' ∉ a) :
    replaceFirstComma (a ++ ',' :: b) = a ++ '.' :: b := by
  induction a with
  | nil => simp [replaceFirstComma]
  | cons x xs ih =>
    have hx : x ≠ ',' := fun h => ha (h ▸ List.mem_cons_self _ _)
    simp only [List.cons_append, replaceFirstComma, if_neg hx, List.append_eq]
    rw [ih (fun h => ha (List.mem_cons_of_mem _ h))]

theorem exists_split_of_count_one {l : List Char} (h : l.count ',' = 1) :
    ∃ a b, l = a ++ ',' :: b ∧ ',' ∉ a ∧ ',' ∉ b := by
  induction l with
  | nil => simp at h
  | cons c cs ih =>
    by_cases hc : c = ','
    · subst hc
      have hcs : cs.count ',' = 0 := by
        rw [List.count_cons_self] at h
        omega
      exact ⟨[], cs, by simp, by simp, List.count_eq_zero.mp hcs⟩
    · have hcs : cs.count ',' = 1 := by
        rwa [List.count_cons_of_ne (fun hh => hc hh.symm)] at h
      obtain ⟨a, b, hab, hna, hnb⟩ := ih hcs
      refine ⟨c :: a, b, ?_, ?_, hnb⟩
      · rw [hab, List.cons_append]
      · intro hm
        rcases List.mem_cons.mp hm with hh | hh
        · exact hc hh.symm
        · exact hna hh

theorem replaceLastComma_eq_replaceFirst {l : List Char} (h : l.count ',' = 1) :
    replaceLastComma l = replaceFirstComma l := by
  obtain ⟨a, b, hab, hna, hnb⟩ := exists_split_of_count_one h
  subst hab
  rw [replaceFirstComma_append b hna]
  unfold replaceLastComma
  rw [List.reverse_append, List.reverse_cons, List.append_assoc, List.singleton_append,
    replaceFirstComma_append a.reverse (by simpa using hnb)]
  rw [List.reverse_append, List.reverse_cons, List.append_assoc, List.singleton_append,
    List.reverse_reverse, List.reverse_reverse]

theorem count_comma_filter_dot (l : List Char) :
    (l.filter (fun c => decide (c ≠ '.'))).count ',' = l.count ',' := by
  rw [List.count_filter]
  decide

theorem normalizeSeps_eq_claimNormalize {l : List Char}
    (h1 : 0 < l.count ',') (h2 : 0 < l.count '.')
    (h3 : l.count ',' = 1 ∨ ¬ lastIndexOf ',' l > lastIndexOf '.' l) :
    normalizeSeps l = claimNormalize l := by
  have hb : 0 < l.count ',' ∧ 0 < l.count '.' := And.intro h1 h2
  by_cases hcm : lastIndexOf ',' l > lastIndexOf '.' l
  · rcases h3 with hc | hc
    · unfold normalizeSeps claimNormalize
      rw [if_pos hb]
      rw [if_pos hb]
      rw [if_pos hcm]
      rw [if_pos hcm]
      rw [replaceLastComma_eq_replaceFirst (by rw [count_comma_filter_dot]; exact hc)]
    · exact absurd hcm hc
  · unfold normalizeSeps claimNormalize
    rw [if_pos hb]
    rw [if_pos hb]
    rw [if_neg hcm]
    rw [if_neg hcm]

/-! Helper lemmas about the stable key sort. -/

theorem sortByKey_perm {α K : Type} [LinearOrder K] (k : α → K) (l : List α) :
    (sortByKey k l).Perm l :=
  List.perm_insertionSort _ l

theorem sortByKey_pairwise {α K : Type} [LinearOrder K] (k : α → K) (l : List α) :
    List.Pairwise (fun a b => k a ≤ k b) (sortByKey k l) := by
  haveI h1 : IsTotal α (fun a b => k a ≤ k b) := ⟨fun a b => le_total (k a) (k b)⟩
  haveI h2 : IsTrans α (fun a b => k a ≤ k b) := ⟨fun a b c ha hb => le_trans ha hb⟩
  exact List.sorted_insertionSort _ l

theorem eq_false_of_not_true {b : Bool} (h : ¬ b = true) : b = false := by
  rcases Bool.eq_false_or_eq_true b with hb | hb
  · exact absurd hb h
  · exact hb

theorem filter_orderedInsert_key {α K : Type} [LinearOrder K] (k : α → K)
    (v : K) (p : α → Bool) (hp : ∀ a, p a = true ↔ k a = v) (x : α) (l : List α) :
    (List.orderedInsert (keyRel k) x l).filter p =
      if k x = v then x :: l.filter p else l.filter p := by
  induction l with
  | nil =>
    by_cases hxv : k x = v
    · have hpx : p x = true := (hp x).mpr hxv
      simp [List.orderedInsert, List.filter_cons, hxv, hpx]
    · have hpx : p x = false := eq_false_of_not_true (fun h => hxv ((hp x).mp h))
      simp [List.orderedInsert, List.filter_cons, hxv, hpx]
  | cons b bs ih =>
    by_cases hxb : keyRel k x b
    · rw [List.orderedInsert, if_pos hxb]
      by_cases hxv : k x = v
      · have hpx : p x = true := (hp x).mpr hxv
        simp [List.filter_cons, hxv, hpx]
      · have hpx : p x = false := eq_false_of_not_true (fun h => hxv ((hp x).mp h))
        simp [List.filter_cons, hxv, hpx]
    · rw [List.orderedInsert, if_neg hxb]
      by_cases hxv : k x = v
      · have hb : ¬ k b = v := by
          intro hbv
          exact hxb (le_of_eq (hxv ▸ hbv ▸ rfl))
        have hpb : p b = false := eq_false_of_not_true (fun h => hb ((hp b).mp h))
        simp [List.filter_cons, hpb, ih, hxv]
      · by_cases hbv : k b = v
        · have hpb : p b = true := (hp b).mpr hbv
          simp [List.filter_cons, hpb, ih, hxv]
        · have hpb : p b = false := eq_false_of_not_true (fun h => hbv ((hp b).mp h))
          simp [List.filter_cons, hpb, ih, hxv]

theorem sortByKey_filter {α K : Type} [LinearOrder K] (k : α → K)
    (v : K) (p : α → Bool) (hp : ∀ a, p a = true ↔ k a = v) (l : List α) :
    (sortByKey k l).filter p = l.filter p := by
  induction l with
  | nil => rfl
  | cons x xs ih =>
    have hstep : sortByKey k (x :: xs) =
        List.orderedInsert (keyRel k) x (sortByKey k xs) := rfl
    rw [hstep, filter_orderedInsert_key k v p hp]
    by_cases hxv : k x = v
    · rw [if_pos hxv, ih, List.filter_cons, if_pos ((hp x).mpr hxv)]
    · have hpx : p x = false := eq_false_of_not_true (fun h => hxv ((hp x).mp h))
      rw [if_neg hxv, ih, List.filter_cons, if_neg (by simp [hpx])]

/-! Evaluation helpers for concrete inputs: the digit-level parse is decided
by the kernel, the final rational step by `norm_num`. -/

theorem cleanAndParseValue_eval {s : String} {t : ℕ × ℕ × ℕ} (hne : ¬ s = "")
    (hp : parseSplit (normalizeSeps (cleanList s)) = some t) :
    cleanAndParseValue (some s) = ratOfSplit t := by
  simp only [cleanAndParseValue, parseFloatModel, hp]
  rw [if_neg hne]
  rfl

theorem cleanAndParseValue_eval_none {s : String} (hne : ¬ s = "")
    (hp : parseSplit (normalizeSeps (cleanList s)) = none) :
    cleanAndParseValue (some s) = 0 := by
  simp only [cleanAndParseValue, parseFloatModel, hp]
  rw [if_neg hne]
  rfl

/-- C1 (counterexample).  The claim quantifies over `parseCurrency
(cleanAndParseValue)` in both cited files.  The imoveis.js variant
(src/unnamed/part_000 lines 10-18) is NOT total: on the empty string it
returns `NaN` (modelled `Except.ok none`), and on an absent/null value it
throws a `TypeError` (modelled `Except.error ()`) instead of returning a
number. -/
theorem c1_imoveis_parser_not_total :
    Imoveis.cleanAndParseValue (some "") = Except.ok none
    ∧ Imoveis.cleanAndParseValue none = Except.error () :=
  ⟨rfl, rfl⟩

/-- C1 (amended).  The carros.js `cleanAndParseValue` is total: for every
input — absent/null (`none`), the empty string, whitespace-only and
symbol-only strings included — it returns a plain finite number, which is
moreover always nonnegative, with `0` as the worst case. -/
theorem c1_carros_parser_total :
    (∀ v : Option String, 0 ≤ cleanAndParseValue v)
    ∧ cleanAndParseValue none = 0
    ∧ cleanAndParseValue (some "") = 0
    ∧ cleanAndParseValue (some "   ") = 0
    ∧ cleanAndParseValue (some "R$ -") = 0 := by
  refine ⟨cleanAndParseValue_nonneg, rfl, rfl, ?_, ?_⟩
  · exact cleanAndParseValue_eval_none (by decide) (by decide)
  · exact cleanAndParseValue_eval_none (by decide) (by decide)

/-- C2 (code_bug evaluation).  For the spec's example item
(`preco_publico = "R$ 100,00"`, `preco_pcd = "R$ 75,00"`) the discount
amount is the number `25`, but `calculateDescontoPercentage` returns the
STRING `"25.00"` produced by `toFixed(2)` — not the number `25` its own
JSDoc (`@returns {number}`) and the claim promise. -/
theorem c2_percentage_is_string_at_example :
    calculateDesconto itemC2 = 25
    ∧ calculateDescontoPercentage itemC2 = JSVal.str "25.00"
    ∧ JSVal.str "25.00" ≠ JSVal.num 25 := by
  have hpub : cleanAndParseValue (precoOrDefault itemC2.preco_publico) = 100 := by
    have hd : precoOrDefault itemC2.preco_publico = some "R$ 100,00" := rfl
    rw [hd, cleanAndParseValue_eval (by decide)
      (by decide : parseSplit (normalizeSeps (cleanList "R$ 100,00")) = some (100, 0, 2))]
    norm_num [ratOfSplit]
  have hpcd : cleanAndParseValue (precoOrDefault itemC2.preco_pcd) = 75 := by
    have hd : precoOrDefault itemC2.preco_pcd = some "R$ 75,00" := rfl
    rw [hd, cleanAndParseValue_eval (by decide)
      (by decide : parseSplit (normalizeSeps (cleanList "R$ 75,00")) = some (75, 0, 2))]
    norm_num [ratOfSplit]
  have hdes : calculateDesconto itemC2 = 25 := by
    unfold calculateDesconto
    rw [hpub, hpcd]
    norm_num
  refine ⟨hdes, ?_, by decide⟩
  unfold calculateDescontoPercentage
  rw [hdes, hpub, if_pos (by norm_num)]
  have harg : (25 : ℚ) / 100 * 100 = 25 := by norm_num
  rw [harg]
  unfold toFixed2
  rw [if_neg (by norm_num)]
  have hfl : Int.floor ((25 : ℚ) * 100 + 1 / 2) = 2500 := by norm_num
  rw [hfl]
  decide

/-- C3 (counterexample).  For an item whose `preco_publico` is absent but
whose `preco_pcd` is `"R$ 75,00"`, `calculateDesconto` returns `-75`, not
`0`: the absent public price falls back to `"R$ 0,00"` and the function
still subtracts the PCD price. -/
theorem c3_desconto_not_zero_when_publico_absent :
    calculateDesconto itemC3 = -75 ∧ ¬ calculateDesconto itemC3 = 0 := by
  have hpub : cleanAndParseValue (precoOrDefault itemC3.preco_publico) = 0 := by
    have hd : precoOrDefault itemC3.preco_publico = some "R$ 0,00" := rfl
    rw [hd, cleanAndParseValue_eval (by decide)
      (by decide : parseSplit (normalizeSeps (cleanList "R$ 0,00")) = some (0, 0, 2))]
    norm_num [ratOfSplit]
  have hpcd : cleanAndParseValue (precoOrDefault itemC3.preco_pcd) = 75 := by
    have hd : precoOrDefault itemC3.preco_pcd = some "R$ 75,00" := rfl
    rw [hd, cleanAndParseValue_eval (by decide)
      (by decide : parseSplit (normalizeSeps (cleanList "R$ 75,00")) = some (75, 0, 2))]
    norm_num [ratOfSplit]
  have hdes : calculateDesconto itemC3 = -75 := by
    unfold calculateDesconto
    rw [hpub, hpcd]
    norm_num
  exact ⟨hdes, by rw [hdes]; norm_num⟩

/-- C3 (amended).  When `preco_publico` is absent or its parsed value is
`≤ 0`, `calculateDescontoPercentage` does return the number `0`, but
`calculateDesconto` returns the NEGATED parsed `preco_pcd`
(`0 - precoPCD`), which is `0` only when the PCD price itself parses to
`0`. -/
theorem c3_zero_public_price_behavior :
    ∀ item : Item,
      (item.preco_publico = none
        ∨ cleanAndParseValue (precoOrDefault item.preco_publico) ≤ 0) →
      calculateDescontoPercentage item = JSVal.num 0
      ∧ calculateDesconto item =
          -(cleanAndParseValue (precoOrDefault item.preco_pcd)) := by
  intro item h
  have hz : cleanAndParseValue (precoOrDefault item.preco_publico) = 0 := by
    rcases h with h | h
    · rw [h]
      have hd : precoOrDefault none = some "R$ 0,00" := rfl
      rw [hd, cleanAndParseValue_eval (by decide)
        (by decide : parseSplit (normalizeSeps (cleanList "R$ 0,00")) = some (0, 0, 2))]
      norm_num [ratOfSplit]
    · exact le_antisymm h (cleanAndParseValue_nonneg _)
  constructor
  · unfold calculateDescontoPercentage
    rw [hz, if_neg (lt_irrefl 0)]
  · unfold calculateDesconto
    rw [hz]
    ring

/-- C3 (witness for the amended theorem), at the item with absent
`preco_publico` and `preco_pcd = "R$ 75,00"`. -/
theorem c3_zero_public_price_behavior_witness :
    calculateDescontoPercentage itemC3 = JSVal.num 0
    ∧ calculateDesconto itemC3 =
        -(cleanAndParseValue (precoOrDefault itemC3.preco_pcd)) :=
  c3_zero_public_price_behavior itemC3 (Or.inl rfl)

/-- C4 (counterexample).  When the cleaned string contains more than one
comma together with a period and the last separator is a comma, the code
does NOT replace the last comma (the claimed decimal separator): it
replaces the FIRST comma.  On `"1,2.3,4"` the code yields `1.23`, while the
claimed last-separator rule (`claimParse`) yields `1`. -/
theorem c4_last_separator_rule_fails_multi_comma :
    cleanAndParseValue (some "1,2.3,4") = 123 / 100
    ∧ claimParse (cleanList "1,2.3,4") = 1
    ∧ ¬ cleanAndParseValue (some "1,2.3,4") = claimParse (cleanList "1,2.3,4") := by
  have h1 : cleanAndParseValue (some "1,2.3,4") = 123 / 100 := by
    rw [cleanAndParseValue_eval (by decide)
      (by decide : parseSplit (normalizeSeps (cleanList "1,2.3,4")) = some (1, 23, 2))]
    norm_num [ratOfSplit]
  have h2 : claimParse (cleanList "1,2.3,4") = 1 := by
    have hp : parseSplit (claimNormalize (cleanList "1,2.3,4")) = some (1, 0, 0) := by
      decide
    unfold claimParse parseFloatModel
    rw [hp]
    norm_num [ratOfSplit]
  refine ⟨h1, h2, ?_⟩
  rw [h1, h2]
  norm_num

/-- C4 (amended).  `parseCurrency("R$ 74.350,00") = 74350` and
`parseCurrency("1,234.56") = 1234.56`, and the last-separator rule of the
claim holds whenever the period is the last separator, or the comma is last
and occurs exactly once — i.e. always except when the claimed decimal comma
occurs more than once, where the code replaces the first comma instead of
the last. -/
theorem c4_last_separator_rule :
    cleanAndParseValue (some "R$ 74.350,00") = 74350
    ∧ cleanAndParseValue (some "1,234.56") = 123456 / 100
    ∧ ∀ s : String,
        0 < (cleanList s).count ',' →
        0 < (cleanList s).count '.' →
        ((cleanList s).count ',' = 1
          ∨ ¬ lastIndexOf ',' (cleanList s) > lastIndexOf '.' (cleanList s)) →
        cleanAndParseValue (some s) = claimParse (cleanList s) := by
  refine ⟨?_, ?_, ?_⟩
  · rw [cleanAndParseValue_eval (by decide)
      (by decide : parseSplit (normalizeSeps (cleanList "R$ 74.350,00")) = some (74350, 0, 2))]
    norm_num [ratOfSplit]
  · rw [cleanAndParseValue_eval (by decide)
      (by decide : parseSplit (normalizeSeps (cleanList "1,234.56")) = some (1234, 56, 2))]
    norm_num [ratOfSplit]
  · intro s h1 h2 h3
    have hs : ¬ s = "" := by
      intro h
      subst h
      rw [(by decide : cleanList "" = [])] at h1
      simp at h1
    simp only [cleanAndParseValue]
    rw [if_neg hs, normalizeSeps_eq_claimNormalize h1 h2 h3]
    unfold claimParse
    cases hp : parseFloatModel (claimNormalize (cleanList s)) with
    | none => rfl
    | some q => rfl

/-- C4 (witness for the amended theorem), at `"1,234.56"` where the comma
occurs once. -/
theorem c4_last_separator_rule_witness :
    cleanAndParseValue (some "1,234.56") = claimParse (cleanList "1,234.56") :=
  c4_last_separator_rule.2.2 "1,234.56" (by decide) (by decide) (Or.inl (by decide))

/-- C5 (confirmed).  At the store level, `sortImoveis` never mutates its
input array: the copy `[...data]` lives at a fresh reference, the in-place
sort writes only there, so after the call the input reference still holds
exactly the original sequence, for every sort mode; and in `default` mode
the returned sequence is the input itself (same reference, same order),
including for empty and single-element sequences (the store is arbitrary). -/
theorem c5_sort_does_not_mutate_input :
    ∀ (σ : Nat → List Item) (dataRef fresh : Nat) (sortOption : String),
      fresh ≠ dataRef →
      (sortImoveisProg σ dataRef fresh sortOption).1 dataRef = σ dataRef
      ∧ (sortImoveisProg σ dataRef fresh "default").2 = dataRef
      ∧ sortImoveis (σ dataRef) "default" = σ dataRef := by
  intro σ a f mode hfa
  have hne : a ≠ f := Ne.symm hfa
  refine ⟨?_, rfl, rfl⟩
  unfold sortImoveisProg
  by_cases h1 : mode = "valor_asc"
  · simp [h1, Function.update_noteq hne]
  · by_cases h2 : mode = "marca_asc"
    · simp [h1, h2, Function.update_noteq hne]
    · by_cases h3 : mode = "desconto_desc"
      · simp [h1, h2, h3, Function.update_noteq hne]
      · simp [h1, h2, h3, Function.update_noteq hne]

/-- C5 (witness), at a concrete store, references `0` and `1`, and mode
`valor_asc`. -/
theorem c5_sort_does_not_mutate_input_witness :
    (sortImoveisProg exStore 0 1 "valor_asc").1 0 = exStore 0
    ∧ (sortImoveisProg exStore 0 1 "default").2 = 0
    ∧ sortImoveis (exStore 0) "default" = exStore 0 :=
  c5_sort_does_not_mutate_input exStore 0 1 "valor_asc" (by decide)

/-- C6 (counterexample).  The claim also covers the imoveis variant
(src/unnamed/part_000 lines 31-37), whose `valor_asc` comparator parses
`a.valor` with the unguarded parser.  On the two-element input
`[itemSemValor, itemValor2]` the comparator throws a `TypeError`
(`undefined.replace`), so the sort returns NO sequence at all; and on
`[itemValor9, itemValorNaN]` the comparator result is `NaN`, which
`SortCompare` coerces to `+0`: the `NaN`-valued item simply stays where it
was, its parsed value being no number at all, so the output is not a
sequence non-decreasing in parsed value. -/
theorem c6_imoveis_valor_asc_not_total :
    Imoveis.sortValorAscPair itemSemValor itemValor2 = Except.error ()
    ∧ Imoveis.sortValorAscPair itemValor9 itemValorNaN =
        Except.ok [itemValor9, itemValorNaN]
    ∧ Imoveis.cleanAndParseValue itemValorNaN.valor = Except.ok none :=
  ⟨rfl, rfl, rfl⟩

/-- C6 (amended).  In the CARROS variant — whose parser is total —
`sortImoveis` with mode `valor_asc` returns a permutation of the input that
is non-decreasing in the parsed value of `preco_pcd` (the carros primary
price field), and the sort is stable: for every parsed price, the items
carrying it appear in their relative input order.  The imoveis variant does
not satisfy this for every input: an absent `valor` makes its comparator
throw, and a digit-free `valor` parses to `NaN`, compared as equal. -/
theorem c6_valor_asc_sorted_stable :
    ∀ data : List Item,
      (sortImoveis data "valor_asc").Perm data
      ∧ List.Pairwise
          (fun a b => cleanAndParseValue a.preco_pcd ≤ cleanAndParseValue b.preco_pcd)
          (sortImoveis data "valor_asc")
      ∧ ∀ q : ℚ,
          (sortImoveis data "valor_asc").filter
              (fun x => decide (cleanAndParseValue x.preco_pcd = q)) =
            data.filter (fun x => decide (cleanAndParseValue x.preco_pcd = q)) := by
  intro data
  have hs : sortImoveis data "valor_asc" = sortByKey valorKey data := rfl
  rw [hs]
  exact ⟨sortByKey_perm valorKey data, sortByKey_pairwise valorKey data,
    fun q => sortByKey_filter valorKey q _ (fun a => by simp [valorKey]) data⟩

/-- C7 (confirmed).  `sortImoveis` with mode `desconto_desc` returns a
permutation of the input that is non-increasing in `calculateDesconto`
(larger discount first), and the sort is stable: for every discount amount,
the items carrying it appear in their relative input order. -/
theorem c7_desconto_desc_sorted_stable :
    ∀ data : List Item,
      (sortImoveis data "desconto_desc").Perm data
      ∧ List.Pairwise (fun a b => calculateDesconto b ≤ calculateDesconto a)
          (sortImoveis data "desconto_desc")
      ∧ ∀ d : ℚ,
          (sortImoveis data "desconto_desc").filter
              (fun x => decide (calculateDesconto x = d)) =
            data.filter (fun x => decide (calculateDesconto x = d)) := by
  intro data
  have hs : sortImoveis data "desconto_desc" = sortByKey descontoKey data := rfl
  refine ⟨?_, ?_, ?_⟩
  · rw [hs]
    exact sortByKey_perm descontoKey data
  · rw [hs]
    exact (sortByKey_pairwise descontoKey data).imp (fun h => neg_le_neg_iff.mp h)
  · intro d
    rw [hs]
    exact sortByKey_filter descontoKey (-d) _ (fun a => by simp [descontoKey]) data

/-- C8 (confirmed, collation modelled from the spec).  `sortImoveis` with
mode `marca_asc` returns a permutation of the input whose brands are
non-decreasing under the pt-BR collation key (accent-folded primary level,
so accented characters sort at their natural alphabetic position), stable
on collation-equal brands; and concretely an accented `"Álamo"` sorts
before `"Alfa"` and both before `"Zeta"`. -/
theorem c8_marca_asc_collation_sorted_stable :
    (∀ data : List Item,
      (sortImoveis data "marca_asc").Perm data
      ∧ List.Pairwise (fun a b => ptBRKey a.marca ≤ ptBRKey b.marca)
          (sortImoveis data "marca_asc")
      ∧ ∀ m : String,
          (sortImoveis data "marca_asc").filter
              (fun x => decide (ptBRKey x.marca = ptBRKey m)) =
            data.filter (fun x => decide (ptBRKey x.marca = ptBRKey m)))
    ∧ sortImoveis [itemZeta, itemAlamo, itemAlfa] "marca_asc" =
        [itemAlamo, itemAlfa, itemZeta] := by
  constructor
  · intro data
    have hs : sortImoveis data "marca_asc" = sortByKey marcaKey data := rfl
    rw [hs]
    exact ⟨sortByKey_perm marcaKey data, sortByKey_pairwise marcaKey data,
      fun m => sortByKey_filter marcaKey (ptBRKey m) _ (fun a => by simp [marcaKey]) data⟩
  · decide

/-- C9 (confirmed).  Any mode string other than the three sorting modes and
`"default"` falls into the `default:` arm of the `switch`: the result is
order-identical to mode `"default"` — the input order, never an error. -/
theorem c9_unknown_mode_behaves_as_default :
    ∀ (data : List Item) (mode : String),
      mode ≠ "valor_asc" → mode ≠ "marca_asc" → mode ≠ "desconto_desc" →
      mode ≠ "default" →
      sortImoveis data mode = sortImoveis data "default"
      ∧ sortImoveis data mode = data := by
  intro data mode h1 h2 h3 _h4
  have hm : sortImoveis data mode = data := by
    unfold sortImoveis
    rw [if_neg h1, if_neg h2, if_neg h3]
  have hd : sortImoveis data "default" = data := rfl
  exact ⟨hm.trans hd.symm, hm⟩

/-- C9 (witness), at the unknown mode string `"foo"`. -/
theorem c9_unknown_mode_behaves_as_default_witness :
    sortImoveis [itemC3] "foo" = sortImoveis [itemC3] "default"
    ∧ sortImoveis [itemC3] "foo" = [itemC3] :=
  c9_unknown_mode_behaves_as_default [itemC3] "foo" (by decide) (by decide)
    (by decide) (by decide)

/-- C10 (confirmed).  In the carros variant, when the cleaned string holds
two or more commas and no period, none of the normalisation branches fires
(`commaCount > 0 && dotCount > 0` fails, `commaCount === 1` fails), so
`parseFloat` reads the untouched string and stops at the first comma: the
result is the number denoted by the longest digit prefix before the first
comma (`0` if that prefix is empty); in particular `"1,234,567"` parses to
`1`, not `1234567`. -/
theorem c10_multi_comma_no_dot_first_segment :
    (∀ s : String,
      2 ≤ (cleanList s).count ',' →
      (cleanList s).count '.' = 0 →
      cleanAndParseValue (some s) = firstSegmentVal (cleanList s))
    ∧ cleanAndParseValue (some "1,234,567") = 1 := by
  constructor
  · intro s h2 h0
    have hs : ¬ s = "" := by
      intro h
      subst h
      rw [(by decide : cleanList "" = [])] at h2
      simp at h2
    have hnd : '.' ∉ cleanList s := List.count_eq_zero.mp h0
    have hkept : ∀ c ∈ cleanList s, isKept c = true := fun c hc =>
      List.of_mem_filter hc
    have hA : ¬ (0 < (cleanList s).count ',' ∧ 0 < (cleanList s).count '.') := by
      rintro ⟨-, hd⟩
      omega
    have hB : ¬ ((cleanList s).count ',' = 1 ∧ (cleanList s).count '.' = 0) := by
      rintro ⟨hc, -⟩
      omega
    have hnorm : normalizeSeps (cleanList s) = cleanList s := by
      unfold normalizeSeps
      rw [if_neg hA, if_neg hB]
    have htw := takeWhile_digit_of_kept hkept hnd
    have hsplit := parseSplit_of_no_dot hnd
    simp only [cleanAndParseValue]
    rw [if_neg hs, hnorm]
    by_cases hemp : ((cleanList s).takeWhile Char.isDigit).isEmpty
    · rw [if_pos hemp] at hsplit
      simp only [parseFloatModel]
      rw [hsplit]
      have hnil : (cleanList s).takeWhile Char.isDigit = [] :=
        List.isEmpty_iff.mp hemp
      unfold firstSegmentVal
      rw [← htw, hnil]
      simp [digitsVal]
    · rw [if_neg hemp] at hsplit
      simp only [parseFloatModel]
      rw [hsplit]
      unfold firstSegmentVal
      rw [← htw]
      show ratOfSplit (digitsVal ((cleanList s).takeWhile Char.isDigit), 0, 0) = _
      unfold ratOfSplit
      norm_num
  · rw [cleanAndParseValue_eval (by decide)
      (by decide : parseSplit (normalizeSeps (cleanList "1,234,567")) = some (1, 0, 0))]
    norm_num [ratOfSplit]

/-- C10 (witness), at `"1,234,567"` (three digit groups, two commas, no
period). -/
theorem c10_multi_comma_no_dot_first_segment_witness :
    cleanAndParseValue (some "1,234,567") = firstSegmentVal (cleanList "1,234,567") :=
  c10_multi_comma_no_dot_first_segment.1 "1,234,567" (by decide) (by decide)
